import Mathlib

/-!
Verification of `protdiff/modelling.py` (foldingdiff): a shallow embedding of
the data model and operations of `BertForDiffusion` and its helper modules,
with theorems settling the specification's claims.

Conventions of the embedding:
* Python dictionaries keyed by strings become functions `String → Option _`.
* Code that can raise (`KeyError`, `ValueError`, failing `assert`s, invalid
  tensor operations) returns `Option _` or `Except _ _`, with `none`/`error`
  standing for the raised exception.
* Tensors appear at two levels of abstraction, matching what each claim
  needs: a shape calculus (`Shape := List Nat`) mirroring torch shape
  semantics of the operations used by the code, and value-level tensors
  over `ℝ` as nested lists for the loss computations.
-/

/-! ### Loss-function tables (`BertForDiffusion` class attributes) -/

/-- The four loss callables reachable from the class-level loss tables:
`F.l1_loss`, `F.smooth_l1_loss`, `losses.radian_l1_loss`, and
`functools.partial(losses.radian_smooth_l1_loss, beta=torch.pi / 10)`. -/
inductive LossFn where
  | l1Loss
  | smoothL1Loss
  | radianL1Loss
  | radianSmoothL1Loss
deriving DecidableEq, Repr

/-- `nonangular_loss_fn_dict = {"l1": F.l1_loss, "smooth_l1": F.smooth_l1_loss}`. -/
def nonangular_loss_fn_dict (key : String) : Option LossFn :=
  if key = "l1" then some .l1Loss
  else if key = "smooth_l1" then some .smoothL1Loss
  else none

/-- `angular_loss_fn_dict = {"l1": losses.radian_l1_loss,
"smooth_l1": partial(losses.radian_smooth_l1_loss, beta=pi/10)}`. -/
def angular_loss_fn_dict (key : String) : Option LossFn :=
  if key = "l1" then some .radianL1Loss
  else if key = "smooth_l1" then some .radianSmoothL1Loss
  else none

/-- `loss_autocorrect_dict = {"radian_l1_smooth": "smooth_l1"}`. -/
def loss_autocorrect_dict (key : String) : Option String :=
  if key = "radian_l1_smooth" then some "smooth_l1" else none

/-- The legacy-name remap done in `__init__`:
`if loss in self.loss_autocorrect_dict: loss = self.loss_autocorrect_dict[loss]`. -/
def autocorrectLoss (loss : String) : String :=
  match loss_autocorrect_dict loss with
  | some remapped => remapped
  | none => loss

/-- The per-channel loss list comprehension in `__init__`:
`[angular_loss_fn_dict[loss] if is_angular else nonangular_loss_fn_dict[loss]
for is_angular in ft_is_angular]`; `none` models the `KeyError` raised by a
lookup of an unknown loss name. -/
def selectLossFns (loss : String) : List Bool → Option (List LossFn)
  | [] => some []
  | is_angular :: rest => do
    let f ← if is_angular then angular_loss_fn_dict loss
            else nonangular_loss_fn_dict loss
    let fs ← selectLossFns loss rest
    some (f :: fs)

/-- The full string-loss branch of `__init__`: legacy-name remap followed by
the per-channel selection. -/
def buildLossFuncList (ft_is_angular : List Bool) (loss : String) :
    Option (List LossFn) :=
  selectLossFns (autocorrectLoss loss) ft_is_angular

theorem selectLossFns_spec (loss : String) :
    ∀ (flags : List Bool) (fns : List LossFn),
      selectLossFns loss flags = some fns →
      fns.length = flags.length ∧
      ∀ i (hi : i < flags.length) (hf : i < fns.length),
        (if flags.get ⟨i, hi⟩ then angular_loss_fn_dict loss
         else nonangular_loss_fn_dict loss) = some (fns.get ⟨i, hf⟩) := by
  intro flags
  induction flags with
  | nil =>
    intro fns h
    simp only [selectLossFns] at h
    obtain rfl := Option.some.inj h
    exact ⟨rfl, fun i hi => absurd hi (Nat.not_lt_zero i)⟩
  | cons a rest ih =>
    intro fns h
    cases a <;>
      simp only [selectLossFns, Option.bind_eq_bind, Option.bind_eq_some,
        if_true, Bool.false_eq_true, if_false] at h <;>
      obtain ⟨f, hf, fs, hfs, heq⟩ := h <;>
      obtain rfl : f :: fs = fns := Option.some.inj heq <;>
      obtain ⟨hlen, hidx⟩ := ih fs hfs <;>
      refine ⟨by simpa using hlen, ?_⟩ <;>
      intro i hi hfi <;>
      match i with
      | 0 => simpa using hf
      | Nat.succ j =>
        have hj : j < rest.length := Nat.lt_of_succ_lt_succ hi
        have hjf : j < fs.length := Nat.lt_of_succ_lt_succ hfi
        simpa using hidx j hj hjf

/-- C1: for every model built with a per-channel angular-flag vector and a
string loss name, the constructed per-channel loss list routes channel `i` to
the angular table's entry for the (remapped) loss name exactly when
`ft_is_angular[i]` is true, and to the non-angular table's entry for the same
name exactly when it is false. -/
theorem loss_selection_routes_by_angular_flag
    (ft_is_angular : List Bool) (loss : String) (fns : List LossFn)
    (h : buildLossFuncList ft_is_angular loss = some fns) :
    fns.length = ft_is_angular.length ∧
    ∀ i (hi : i < ft_is_angular.length) (hf : i < fns.length),
      (ft_is_angular.get ⟨i, hi⟩ = true →
        angular_loss_fn_dict (autocorrectLoss loss) = some (fns.get ⟨i, hf⟩)) ∧
      (ft_is_angular.get ⟨i, hi⟩ = false →
        nonangular_loss_fn_dict (autocorrectLoss loss) = some (fns.get ⟨i, hf⟩)) := by
  obtain ⟨hlen, hidx⟩ := selectLossFns_spec (autocorrectLoss loss) ft_is_angular fns h
  refine ⟨hlen, ?_⟩
  intro i hi hf
  have hcond := hidx i hi hf
  constructor
  · intro htrue
    simp only [htrue, if_true] at hcond
    exact hcond
  · intro hfalse
    simp only [hfalse, Bool.false_eq_true, if_false] at hcond
    exact hcond

theorem loss_selection_routes_by_angular_flag_witness :
    angular_loss_fn_dict "l1" = some LossFn.radianL1Loss ∧
    nonangular_loss_fn_dict "l1" = some LossFn.l1Loss := by
  have h := loss_selection_routes_by_angular_flag [false, true] "l1"
    [LossFn.l1Loss, LossFn.radianL1Loss] rfl
  exact ⟨(h.2 1 (by decide) (by decide)).1 rfl, (h.2 0 (by decide) (by decide)).2 rfl⟩

/-- C4: constructing with the legacy loss name `"radian_l1_smooth"` yields the
same per-channel loss-function list as requesting `"smooth_l1"`, for every
angular-flag vector. -/
theorem legacy_radian_l1_smooth_equals_smooth_l1 (ft_is_angular : List Bool) :
    buildLossFuncList ft_is_angular "radian_l1_smooth" =
    buildLossFuncList ft_is_angular "smooth_l1" := rfl

/-! ### Value-level loss functions

`F.l1_loss` and `F.smooth_l1_loss` (default `reduction="mean"`, default
`beta=1.0`) over flat lists of reals; the `losses` module itself is not part
of the excerpted source, so its two radian losses are modelled from the spec.
-/

open Real in
/-- Mean of a list of reals (the `reduction="mean"` step of the torch losses;
division by zero yields Lean's `0`, standing in for the empty reduction). -/
noncomputable def meanList (xs : List ℝ) : ℝ := xs.sum / xs.length

/-- `torch.nn.functional.l1_loss` with mean reduction: mean elementwise
absolute difference. -/
noncomputable def l1_loss (input target : List ℝ) : ℝ :=
  meanList (List.zipWith (fun a b => |a - b|) input target)

/-- One element of `F.smooth_l1_loss`: `0.5*d^2/beta` when `|d| < beta`,
else `|d| - 0.5*beta`. -/
noncomputable def smoothL1Elem (beta d : ℝ) : ℝ :=
  if |d| < beta then d ^ 2 / (2 * beta) else |d| - beta / 2

/-- `torch.nn.functional.smooth_l1_loss` with mean reduction. -/
noncomputable def smooth_l1_loss (beta : ℝ) (input target : List ℝ) : ℝ :=
  meanList (List.zipWith (fun a b => smoothL1Elem beta (a - b)) input target)

/-- Modelled from the spec: the `losses` module (imported as `from . import
losses` but absent from the excerpted source) wraps an angular difference
into `(-pi, pi]` before applying the elementwise loss. `wrapToPi d` is the
unique representative of `d` modulo `2*pi` lying in `(-pi, pi]`. -/
noncomputable def wrapToPi (d : ℝ) : ℝ :=
  d - 2 * Real.pi * ⌈(d - Real.pi) / (2 * Real.pi)⌉

/-- Modelled from the spec: `losses.radian_l1_loss` = mean absolute
wrapped difference. -/
noncomputable def radian_l1_loss (input target : List ℝ) : ℝ :=
  meanList (List.zipWith (fun a b => |wrapToPi (a - b)|) input target)

/-- Modelled from the spec: `losses.radian_smooth_l1_loss` = smooth-L1
(huber) applied to the wrapped difference; `modelling.py` binds
`beta = torch.pi / 10` via `functools.partial`. -/
noncomputable def radian_smooth_l1_loss (beta : ℝ) (input target : List ℝ) : ℝ :=
  meanList (List.zipWith (fun a b => smoothL1Elem beta (wrapToPi (a - b))) input target)

theorem meanList_singleton (a : ℝ) : meanList [a] = a := by
  simp [meanList]

theorem wrapToPi_add_int_mul (d : ℝ) (k : ℤ) :
    wrapToPi (d + 2 * Real.pi * k) = wrapToPi d := by
  unfold wrapToPi
  have hpi : Real.pi ≠ 0 := Real.pi_ne_zero
  have h1 : (d + 2 * Real.pi * k - Real.pi) / (2 * Real.pi) =
      (d - Real.pi) / (2 * Real.pi) + k := by
    field_simp
    ring
  rw [h1, Int.ceil_add_int]
  push_cast
  ring

theorem wrapToPi_zero : wrapToPi 0 = 0 := by
  unfold wrapToPi
  have hpi : Real.pi ≠ 0 := Real.pi_ne_zero
  have h1 : (0 - Real.pi) / (2 * Real.pi) = -(1 / 2) := by
    field_simp
    ring
  rw [h1]
  norm_num

theorem wrapToPi_sub_shift_left (x y : ℝ) (k : ℤ) :
    wrapToPi (x + 2 * Real.pi * k - y) = wrapToPi (x - y) := by
  have h : x + 2 * Real.pi * k - y = (x - y) + 2 * Real.pi * k := by ring
  rw [h, wrapToPi_add_int_mul]

theorem wrapToPi_sub_shift_right (x y : ℝ) (k : ℤ) :
    wrapToPi (x - (y + 2 * Real.pi * k)) = wrapToPi (x - y) := by
  have h : x - (y + 2 * Real.pi * k) = (x - y) + 2 * Real.pi * ((-k : ℤ) : ℝ) := by
    push_cast
    ring
  rw [h, wrapToPi_add_int_mul]

/-- C9: both angular losses are invariant under adding `2*pi*k` (any integer
`k`) to either argument, and on the spec's literal inputs the angular L1 loss
of `0.1` against `0.1 + 2*pi` is exactly `0`. -/
theorem angular_loss_two_pi_invariant (x y : ℝ) (k : ℤ) :
    (radian_l1_loss [x + 2 * Real.pi * k] [y] = radian_l1_loss [x] [y] ∧
     radian_l1_loss [x] [y + 2 * Real.pi * k] = radian_l1_loss [x] [y]) ∧
    (radian_smooth_l1_loss (Real.pi / 10) [x + 2 * Real.pi * k] [y] =
       radian_smooth_l1_loss (Real.pi / 10) [x] [y] ∧
     radian_smooth_l1_loss (Real.pi / 10) [x] [y + 2 * Real.pi * k] =
       radian_smooth_l1_loss (Real.pi / 10) [x] [y]) ∧
    radian_l1_loss [(0.1 : ℝ)] [0.1 + 2 * Real.pi] = 0 := by
  refine ⟨⟨?_, ?_⟩, ⟨?_, ?_⟩, ?_⟩
  · simp [radian_l1_loss, List.zipWith, meanList_singleton, wrapToPi_sub_shift_left]
  · simp [radian_l1_loss, List.zipWith, meanList_singleton, wrapToPi_sub_shift_right]
  · simp [radian_smooth_l1_loss, List.zipWith, meanList_singleton, wrapToPi_sub_shift_left]
  · simp [radian_smooth_l1_loss, List.zipWith, meanList_singleton, wrapToPi_sub_shift_right]
  · have hw : wrapToPi ((0.1 : ℝ) - (0.1 + 2 * Real.pi)) = 0 := by
      have h : (0.1 : ℝ) - (0.1 + 2 * Real.pi) = 0 + 2 * Real.pi * ((-1 : ℤ) : ℝ) := by
        push_cast
        ring
      rw [h, wrapToPi_add_int_mul, wrapToPi_zero]
    have hzip : List.zipWith (fun a b => |wrapToPi (a - b)|)
        [(0.1 : ℝ)] [0.1 + 2 * Real.pi] =
        [|wrapToPi ((0.1 : ℝ) - (0.1 + 2 * Real.pi))|] := rfl
    unfold radian_l1_loss
    rw [hzip, hw, abs_zero, meanList_singleton]

/-! ### `_get_loss_terms`: masked gathering of per-channel losses -/

/-- A value-level `(batch, seq_len, num_channels)` tensor as nested lists. -/
abbrev Tensor3 := List (List (List ℝ))

/-- A value-level `(batch, seq_len)` boolean attention mask. -/
abbrev Mask := List (List Bool)

/-- Element access `x[b, s, i]` (out-of-range reads default, which the
theorems never rely on). -/
def entryAt (x : Tensor3) (b s i : Nat) : ℝ :=
  ((x.getD b []).getD s []).getD i 0

/-- `torch.where(batch["attn_mask"])`: the row-major list of `(batch, seq)`
coordinates at which the mask is true. -/
def unmask_idx (attn_mask : Mask) : List (Nat × Nat) :=
  attn_mask.enum.flatMap fun br =>
    br.2.enum.filterMap fun sv => if sv.2 then some (br.1, sv.1) else none

/-- `tensor[unmask_idx[0], unmask_idx[1], i]`: gather channel `i` of a tensor
at a list of `(batch, seq)` coordinates. -/
def gatherChannel (x : Tensor3) (idx : List (Nat × Nat)) (i : Nat) : List ℝ :=
  idx.map fun q => entryAt x q.1 q.2 i

/-- `known_noise.shape[-1]`, assuming a rectangular tensor. -/
def numChannels (x : Tensor3) : Nat := ((x.headD []).headD []).length

/-- Dispatch from a `LossFn` tag to the value-level loss it denotes
(the two radian ones being modelled from the spec). -/
noncomputable def baseLossFn : LossFn → List ℝ → List ℝ → ℝ
  | .l1Loss => l1_loss
  | .smoothL1Loss => smooth_l1_loss 1
  | .radianL1Loss => radian_l1_loss
  | .radianSmoothL1Loss => radian_smooth_l1_loss (Real.pi / 10)

/-- `_get_loss_terms` after the forward pass: one scalar per channel of
`known_noise`, each computed from the two channel slices gathered at the
mask's true coordinates. `acceptsCircle` is modelled from the spec: the
`inspect`-based detection of whether a loss callable takes `circle_penalty`
(the `losses` module is absent from the excerpted source, so the predicate is
a parameter); `circlePen` is modelled from the spec: the additional circular
regularization term such a loss folds in, a function of `self.circle_lambda`
and the two gathered slices. -/
noncomputable def get_loss_terms (loss_func : List LossFn) (circle_lambda : ℝ)
    (acceptsCircle : LossFn → Bool) (circlePen : ℝ → List ℝ → List ℝ → ℝ)
    (predicted_noise known_noise : Tensor3) (attn_mask : Mask) : List ℝ :=
  (List.range (numChannels known_noise)).map fun i =>
    let fn := loss_func.getD i .l1Loss
    let p := gatherChannel predicted_noise (unmask_idx attn_mask) i
    let k := gatherChannel known_noise (unmask_idx attn_mask) i
    baseLossFn fn p k + (if acceptsCircle fn then circlePen circle_lambda p k else 0)

/-- Channel `i` of a tensor flattened over batch and sequence in row-major
order: what gathering at a fully-true mask should produce. -/
def flattenChannel (x : Tensor3) (i : Nat) : List ℝ :=
  x.flatMap fun row => row.map fun ch => ch.getD i 0

/-- An all-true mask of the same `(batch, seq)` shape as a tensor. -/
def fullMask (x : Tensor3) : Mask := x.map fun row => row.map fun _ => true

/-- The per-channel losses computed with no masking at all: each channel's
loss applied to the fully flattened channel slices. -/
noncomputable def unmasked_loss_terms (loss_func : List LossFn) (circle_lambda : ℝ)
    (acceptsCircle : LossFn → Bool) (circlePen : ℝ → List ℝ → List ℝ → ℝ)
    (predicted_noise known_noise : Tensor3) : List ℝ :=
  (List.range (numChannels known_noise)).map fun i =>
    let fn := loss_func.getD i .l1Loss
    let p := flattenChannel predicted_noise i
    let k := flattenChannel known_noise i
    baseLossFn fn p k + (if acceptsCircle fn then circlePen circle_lambda p k else 0)

/-- The `(batch, seq)` shape of a nested-list tensor. -/
def shape2 (x : Tensor3) : List Nat := x.map List.length

theorem maskAt_of_mem_unmask_idx (attn_mask : Mask) (b s : Nat)
    (h : (b, s) ∈ unmask_idx attn_mask) :
    (attn_mask.getD b []).getD s false = true := by
  unfold unmask_idx at h
  rw [List.mem_flatMap] at h
  obtain ⟨br, hbr, hmem⟩ := h
  rw [List.mem_filterMap] at hmem
  obtain ⟨sv, hsv, heq⟩ := hmem
  by_cases hv : sv.2 = true
  · rw [if_pos hv] at heq
    obtain ⟨hb, hs⟩ := Prod.mk.injEq .. ▸ Option.some.inj heq
    rw [List.mem_enum_iff_getElem?] at hbr hsv
    subst hb hs
    simp only [List.getD_eq_getElem?_getD, hbr, Option.getD_some, hsv]
    exact hv
  · rw [if_neg hv] at heq
    exact absurd heq (Option.noConfusion)

theorem enumFrom_add_eq_map {α : Type _} (n : Nat) :
    ∀ (l : List α) (m : Nat),
      l.enumFrom (n + m) = (l.enumFrom m).map fun q => (q.1 + n, q.2) := by
  intro l
  induction l with
  | nil => intro m; rfl
  | cons a t ih =>
    intro m
    simp only [List.enumFrom_cons, List.map_cons]
    refine congrArg₂ _ ?_ ?_
    · exact Prod.ext (Nat.add_comm n m) rfl
    · exact ih (m + 1)

theorem enum_cons_map {α : Type _} (a : α) (l : List α) :
    (a :: l).enum = (0, a) :: l.enum.map fun q => (q.1 + 1, q.2) := by
  rw [List.enum_cons]
  congr 1
  have h := enumFrom_add_eq_map 1 l 0
  simpa [List.enum] using h

theorem flatMap_congr_fun {α β : Type _} {l : List α} {f g : α → List β}
    (h : ∀ a ∈ l, f a = g a) : l.flatMap f = l.flatMap g := by
  induction l with
  | nil => rfl
  | cons a t ih =>
    rw [List.flatMap_cons, List.flatMap_cons, h a (List.mem_cons_self a t),
      ih fun b hb => h b (List.mem_cons_of_mem a hb)]

theorem unmask_idx_cons (r : List Bool) (m : Mask) :
    unmask_idx (r :: m) =
      (r.enum.filterMap fun sv => if sv.2 then some ((0 : Nat), sv.1) else none) ++
      (unmask_idx m).map fun q => (q.1 + 1, q.2) := by
  unfold unmask_idx
  rw [enum_cons_map, List.flatMap_cons, List.flatMap_map, List.map_flatMap]
  refine congrArg₂ _ rfl ?_
  refine flatMap_congr_fun fun q _ => ?_
  rw [List.map_filterMap]
  congr 1
  funext sv
  by_cases hv : sv.2 = true
  · simp [hv]
  · simp [hv]

theorem map_range_getD {α β : Type _} (f : α → β) (d : α) :
    ∀ (l : List α), ((List.range l.length).map fun s => f (l.getD s d)) = l.map f := by
  intro l
  induction l with
  | nil => rfl
  | cons a t ih =>
    simp only [List.length_cons, List.range_succ_eq_map, List.map_cons,
      List.map_map, List.getD_cons_zero, Function.comp_def, List.getD_cons_succ]
    exact congrArg (f a :: ·) ih

theorem filterMap_enum_allTrue {α β : Type _} :
    ∀ (r : List α) (g : Nat → β),
      ((r.map fun _ => true).enum.filterMap fun sv =>
        if sv.2 then some (g sv.1) else none) = (List.range r.length).map g := by
  intro r
  induction r with
  | nil => intro g; rfl
  | cons a t ih =>
    intro g
    rw [List.map_cons, enum_cons_map, List.filterMap_cons, List.filterMap_map]
    simp only [if_true]
    have hih := ih (fun s => g (s + 1))
    simp only [Function.comp_def]
    rw [List.length_cons, List.range_succ_eq_map, List.map_cons, List.map_map]
    exact congrArg (g 0 :: ·) hih

theorem gather_fullMask (i : Nat) :
    ∀ (pat x : Tensor3), shape2 x = shape2 pat →
      gatherChannel x (unmask_idx (fullMask pat)) i = flattenChannel x i := by
  intro pat
  induction pat with
  | nil =>
    intro x hx
    have hnil : x = [] := List.map_eq_nil_iff.mp hx
    subst hnil
    rfl
  | cons r pt ih =>
    intro x hx
    cases x with
    | nil => exact absurd hx (by simp [shape2])
    | cons xr xt =>
      simp only [shape2, List.map_cons, List.cons.injEq] at hx
      obtain ⟨hlen, htail⟩ := hx
      rw [show fullMask (r :: pt) = (r.map fun _ => true) :: fullMask pt from rfl,
        unmask_idx_cons]
      unfold gatherChannel
      rw [List.map_append,
        filterMap_enum_allTrue r (fun s => ((0 : Nat), s)), List.map_map, List.map_map]
      have h1 : ((List.range r.length).map
          ((fun q : Nat × Nat => entryAt (xr :: xt) q.1 q.2 i) ∘ fun s => ((0 : Nat), s))) =
          xr.map fun ch => ch.getD i 0 := by
        rw [← hlen]
        exact map_range_getD (fun ch => ch.getD i 0) [] xr
      have h2 : ((unmask_idx (fullMask pt)).map
          ((fun q : Nat × Nat => entryAt (xr :: xt) q.1 q.2 i) ∘ fun q => (q.1 + 1, q.2))) =
          flattenChannel xt i := by
        have hcong : ∀ q : Nat × Nat,
            entryAt (xr :: xt) (q.1 + 1) q.2 i = entryAt xt q.1 q.2 i := by
          intro q
          simp [entryAt]
        calc ((unmask_idx (fullMask pt)).map
              ((fun q : Nat × Nat => entryAt (xr :: xt) q.1 q.2 i) ∘ fun q => (q.1 + 1, q.2)))
            = (unmask_idx (fullMask pt)).map fun q => entryAt xt q.1 q.2 i := by
              exact List.map_eq_map_iff.mpr fun q _ => hcong q
          _ = flattenChannel xt i := ih xt htail
      rw [h1, h2]
      rfl

/-- C2: positions with a false attention mask never influence any per-channel
loss term: two batches that agree at every masked-in position produce
identical per-channel losses whatever their values elsewhere, and with a
fully-true mask the masked computation equals the unmasked one. Quantified
over the spec-modelled circle-penalty parameters, so it holds whatever the
absent `losses` module does with `circle_penalty`. -/
theorem masked_positions_never_influence_loss :
    (∀ (loss_func : List LossFn) (circle_lambda : ℝ) (acceptsCircle : LossFn → Bool)
        (circlePen : ℝ → List ℝ → List ℝ → ℝ) (p1 k1 p2 k2 : Tensor3) (attn_mask : Mask),
      (∀ b s, (attn_mask.getD b []).getD s false = true →
        ∀ i, entryAt p1 b s i = entryAt p2 b s i ∧ entryAt k1 b s i = entryAt k2 b s i) →
      numChannels k1 = numChannels k2 →
      get_loss_terms loss_func circle_lambda acceptsCircle circlePen p1 k1 attn_mask =
        get_loss_terms loss_func circle_lambda acceptsCircle circlePen p2 k2 attn_mask) ∧
    (∀ (loss_func : List LossFn) (circle_lambda : ℝ) (acceptsCircle : LossFn → Bool)
        (circlePen : ℝ → List ℝ → List ℝ → ℝ) (predicted known : Tensor3),
      shape2 predicted = shape2 known →
      get_loss_terms loss_func circle_lambda acceptsCircle circlePen
          predicted known (fullMask known) =
        unmasked_loss_terms loss_func circle_lambda acceptsCircle circlePen
          predicted known) := by
  constructor
  · intro lf cl ac cp p1 k1 p2 k2 attn_mask hmask hnc
    unfold get_loss_terms
    rw [hnc]
    refine List.map_eq_map_iff.mpr fun i _ => ?_
    have hp : gatherChannel p1 (unmask_idx attn_mask) i =
        gatherChannel p2 (unmask_idx attn_mask) i := by
      refine List.map_eq_map_iff.mpr fun q hq => ?_
      have hq' := maskAt_of_mem_unmask_idx attn_mask q.1 q.2 (by simpa using hq)
      exact (hmask q.1 q.2 hq' i).1
    have hk : gatherChannel k1 (unmask_idx attn_mask) i =
        gatherChannel k2 (unmask_idx attn_mask) i := by
      refine List.map_eq_map_iff.mpr fun q hq => ?_
      have hq' := maskAt_of_mem_unmask_idx attn_mask q.1 q.2 (by simpa using hq)
      exact (hmask q.1 q.2 hq' i).2
    simp only [hp, hk]
  · intro lf cl ac cp predicted known hshape
    unfold get_loss_terms unmasked_loss_terms
    refine List.map_eq_map_iff.mpr fun i _ => ?_
    have hp := gather_fullMask i known predicted hshape
    have hk := gather_fullMask i known known rfl
    simp only [hp, hk]

theorem masked_positions_never_influence_loss_witness :
    get_loss_terms [] 0 (fun _ => false) (fun _ _ _ => 0) [[[1]]] [[[1]]] [[true]] =
      get_loss_terms [] 0 (fun _ => false) (fun _ _ _ => 0) [[[1]]] [[[1]]] [[true]] ∧
    get_loss_terms [] 0 (fun _ => false) (fun _ _ _ => 0) [[[1]]] [[[1]]]
        (fullMask [[[1]]]) =
      unmasked_loss_terms [] 0 (fun _ => false) (fun _ _ _ => 0) [[[1]]] [[[1]]] := by
  constructor
  · exact masked_positions_never_influence_loss.1 [] 0 (fun _ => false)
      (fun _ _ _ => 0) [[[1]]] [[[1]]] [[[1]]] [[[1]]] [[true]]
      (fun b s _ i => ⟨rfl, rfl⟩) rfl
  · exact masked_positions_never_influence_loss.2 [] 0 (fun _ => false)
      (fun _ _ _ => 0) [[[1]]] [[[1]]] rfl

/-! ### `training_step`: loss aggregation and L1 weight penalty -/

/-- A trainable parameter tensor as seen by `torch.linalg.norm(p, 1)`:
1-D parameters (biases) or 2-D parameters (weight matrices). -/
inductive TorchParam where
  | vec (entries : List ℝ)
  | mat (rows : List (List ℝ))

/-- `torch.linalg.norm(p, 1)`: the vector 1-norm for 1-D tensors and the
induced matrix 1-norm (maximum absolute column sum) for 2-D tensors. -/
noncomputable def linalg_norm1 : TorchParam → ℝ
  | .vec v => (v.map fun x => |x|).sum
  | .mat rows => ((rows.transpose.map fun col => (col.map fun x => |x|).sum).foldr max 0)

/-- `training_step`: mean of the per-channel loss terms, plus
`l1_lambda * sum(torch.linalg.norm(p, 1) for p in parameters)` exactly when
`self.l1_lambda > 0`. -/
noncomputable def training_step (l1_lambda : ℝ) (params : List TorchParam)
    (loss_terms : List ℝ) : ℝ :=
  let avg_loss := meanList loss_terms
  if l1_lambda > 0 then
    avg_loss + l1_lambda * (params.map linalg_norm1).sum
  else avg_loss

/-- C5: with L1 coefficient `0` the training step returns exactly the mean
of the per-channel loss terms; with a positive coefficient it returns that
mean plus `l1_lambda` times the summed L1 norms of all parameters. -/
theorem training_step_l1_penalty (l1_lambda : ℝ) (params : List TorchParam)
    (loss_terms : List ℝ) :
    (l1_lambda = 0 → training_step l1_lambda params loss_terms = meanList loss_terms) ∧
    (0 < l1_lambda → training_step l1_lambda params loss_terms =
      meanList loss_terms + l1_lambda * (params.map linalg_norm1).sum) := by
  constructor
  · intro h
    subst h
    simp [training_step]
  · intro h
    simp [training_step, h]

theorem training_step_l1_penalty_witness :
    training_step 0 [] [(2 : ℝ)] = meanList [(2 : ℝ)] ∧
    training_step 1 [] [(2 : ℝ)] =
      meanList [(2 : ℝ)] + 1 * (([] : List TorchParam).map linalg_norm1).sum := by
  exact ⟨(training_step_l1_penalty 0 [] [2]).1 rfl,
    (training_step_l1_penalty 1 [] [2]).2 (by norm_num)⟩

/-! ### `validation_step`: prediction-dump counter -/

/-- The slice of model state that `validation_step` reads and writes:
`self.write_preds_to_dir` (set once in `__init__`) and the mutable
`self.write_preds_counter`. -/
structure ValState where
  write_preds_to_dir : Option String
  write_preds_counter : Nat

/-- The `write_preds` path passed to `_get_loss_terms`:
`os.path.join(self.write_preds_to_dir, f"{self.write_preds_counter}_preds.json")`
when a directory is configured, else `None` (no file written). -/
def validation_step_dump_path (s : ValState) : Option String :=
  s.write_preds_to_dir.map fun d =>
    d ++ "/" ++ toString s.write_preds_counter ++ "_preds.json"

/-- The state update of one `validation_step` call:
`self.write_preds_counter += 1`, unconditionally. -/
def validation_step_next (s : ValState) : ValState :=
  { s with write_preds_counter := s.write_preds_counter + 1 }

/-- `k` consecutive `validation_step` calls. -/
def iterate_validation (s : ValState) : Nat → ValState
  | 0 => s
  | k + 1 => iterate_validation (validation_step_next s) k

theorem iterate_validation_counter :
    ∀ (k : Nat) (s : ValState),
      (iterate_validation s k).write_preds_counter = s.write_preds_counter + k := by
  intro k
  induction k with
  | zero => intro s; rfl
  | succ n ih =>
    intro s
    show (iterate_validation (validation_step_next s) n).write_preds_counter = _
    rw [ih (validation_step_next s)]
    show s.write_preds_counter + 1 + n = s.write_preds_counter + (n + 1)
    omega

theorem iterate_validation_dir :
    ∀ (k : Nat) (s : ValState),
      (iterate_validation s k).write_preds_to_dir = s.write_preds_to_dir := by
  intro k
  induction k with
  | zero => intro s; rfl
  | succ n ih => intro s; exact ih (validation_step_next s)

/-- C10: each `validation_step` call increments the prediction-write counter
by exactly one, whether or not a predictions directory is configured; hence
over any run of calls the counter is strictly increasing, and when dumping is
enabled the `k`-th call writes to a filename embedding the strictly
increasing counter value `initial + k`, while with no directory configured no
path is ever produced. -/
theorem validation_counter_increments (s : ValState) :
    ((validation_step_next s).write_preds_counter = s.write_preds_counter + 1) ∧
    (∀ k m : Nat, k < m →
      (iterate_validation s k).write_preds_counter <
        (iterate_validation s m).write_preds_counter) ∧
    (∀ d, s.write_preds_to_dir = some d → ∀ k,
      validation_step_dump_path (iterate_validation s k) =
        some (d ++ "/" ++ toString (s.write_preds_counter + k) ++ "_preds.json")) ∧
    (s.write_preds_to_dir = none → ∀ k,
      validation_step_dump_path (iterate_validation s k) = none) := by
  refine ⟨rfl, ?_, ?_, ?_⟩
  · intro k m hkm
    rw [iterate_validation_counter k s, iterate_validation_counter m s]
    omega
  · intro d hd k
    unfold validation_step_dump_path
    rw [iterate_validation_dir k s, hd, iterate_validation_counter k s]
    rfl
  · intro hd k
    unfold validation_step_dump_path
    rw [iterate_validation_dir k s, hd]
    rfl

theorem validation_counter_increments_witness :
    (iterate_validation ⟨some "out", 0⟩ 1).write_preds_counter <
      (iterate_validation ⟨some "out", 0⟩ 3).write_preds_counter ∧
    validation_step_dump_path (iterate_validation ⟨some "out", 0⟩ 2) =
      some ("out" ++ "/" ++ toString (0 + 2) ++ "_preds.json") ∧
    validation_step_dump_path (iterate_validation ⟨none, 0⟩ 2) = none := by
  refine ⟨?_, ?_, ?_⟩
  · exact (validation_counter_increments ⟨some "out", 0⟩).2.1 1 3 (by norm_num)
  · exact (validation_counter_increments ⟨some "out", 0⟩).2.2.1 "out" rfl 2
  · exact (validation_counter_increments ⟨none, 0⟩).2.2.2 rfl 2

/-! ### `__init__` / `configure_optimizers`: configuration validation -/

/-- The exceptions `__init__` can raise: `NotImplementedError` for decoder
mode, `AssertionError` for a feature-name count mismatch, `KeyError` for an
unknown loss key, and the two explicit `ValueError`s. -/
inductive InitError where
  | notImplementedDecoderMode
  | ftNamesLengthMismatch
  | unknownLossKey
  | unrecognizedDecoder (name : String)
  | unknownTimeEncoding (name : String)
deriving DecidableEq, Repr

/-- The decoder head selected at construction. -/
inductive DecoderHead where
  | linear
  | mlp
deriving DecidableEq, Repr

/-- The time-encoding module selected at construction. -/
inductive TimeEncodingVariant where
  | gaussianFourier
  | sinusoidal
deriving DecidableEq, Repr

/-- What the validated part of `__init__` produces. -/
structure ModelInitResult where
  loss_func : List LossFn
  decoderHead : DecoderHead
  timeEncoding : TimeEncodingVariant
deriving DecidableEq, Repr

/-- The validation/dispatch sequence of `BertForDiffusion.__init__` with a
string loss: decoder-mode check, feature-name length assert, loss-table
lookups, decoder dispatch (`ValueError` on unknown name), then time-encoding
dispatch (`ValueError` on unknown name). -/
def bertForDiffusionInit (config_is_decoder : Bool) (ft_is_angular : List Bool)
    (ft_names : Option (List String)) (time_encoding decoder loss : String) :
    Except InitError ModelInitResult :=
  if config_is_decoder then .error .notImplementedDecoderMode
  else
    let n_inputs := ft_is_angular.length
    let names := match ft_names with
      | some ns => ns
      | none => (List.range n_inputs).map fun i => "ft" ++ toString i
    if names.length ≠ n_inputs then .error .ftNamesLengthMismatch
    else match buildLossFuncList ft_is_angular loss with
      | none => .error .unknownLossKey
      | some fns => do
        let head ← if decoder = "linear" then .ok DecoderHead.linear
          else if decoder = "mlp" then .ok DecoderHead.mlp
          else .error (InitError.unrecognizedDecoder decoder)
        let te ← if time_encoding = "gaussian_fourier" then
            .ok TimeEncodingVariant.gaussianFourier
          else if time_encoding = "sinusoidal" then .ok TimeEncodingVariant.sinusoidal
          else .error (InitError.unknownTimeEncoding time_encoding)
        .ok ⟨fns, head, te⟩

/-- The exception `configure_optimizers` can raise. -/
inductive ConfigError where
  | unknownLrScheduler (name : String)
deriving DecidableEq, Repr

/-- The scheduler part of the dictionary `configure_optimizers` returns:
`none` when no `lr_scheduler` entry is attached. -/
structure OptimizersResult where
  scheduler : Option String
deriving DecidableEq, Repr

/-- `configure_optimizers`: `if self.lr_scheduler:` (so `None` and the empty
string attach no scheduler), then dispatch on the two known names, raising
`ValueError` otherwise. -/
def configure_optimizers (lr_scheduler : Option String) :
    Except ConfigError OptimizersResult :=
  match lr_scheduler with
  | none => .ok ⟨none⟩
  | some name =>
    if name = "" then .ok ⟨none⟩
    else if name = "OneCycleLR" then .ok ⟨some "OneCycleLR"⟩
    else if name = "LinearWarmup" then .ok ⟨some "LinearWarmup"⟩
    else .error (.unknownLrScheduler name)

/-- C6: an unknown decoder name, an unknown time-encoding name (with any
valid decoder), and an unknown non-empty scheduler name each produce the
corresponding raised error rather than any silently defaulted result. -/
theorem unknown_names_raise_config_errors :
    (∀ (ft_is_angular : List Bool) (time_encoding decoder loss : String),
      buildLossFuncList ft_is_angular loss ≠ none →
      decoder ≠ "linear" → decoder ≠ "mlp" →
      bertForDiffusionInit false ft_is_angular none time_encoding decoder loss =
        .error (.unrecognizedDecoder decoder)) ∧
    (∀ (ft_is_angular : List Bool) (time_encoding decoder loss : String),
      (decoder = "linear" ∨ decoder = "mlp") →
      buildLossFuncList ft_is_angular loss ≠ none →
      time_encoding ≠ "gaussian_fourier" → time_encoding ≠ "sinusoidal" →
      bertForDiffusionInit false ft_is_angular none time_encoding decoder loss =
        .error (.unknownTimeEncoding time_encoding)) ∧
    (∀ name : String, name ≠ "" → name ≠ "OneCycleLR" → name ≠ "LinearWarmup" →
      configure_optimizers (some name) = .error (.unknownLrScheduler name)) := by
  refine ⟨?_, ?_, ?_⟩
  · intro fa te dec loss hloss hd1 hd2
    obtain ⟨fns, hfns⟩ := Option.ne_none_iff_exists'.mp hloss
    simp [bertForDiffusionInit, hfns, hd1, hd2, Except.bind]
    rfl
  · intro fa te dec loss hdec hloss ht1 ht2
    obtain ⟨fns, hfns⟩ := Option.ne_none_iff_exists'.mp hloss
    cases hdec with
    | inl h =>
      subst h
      simp [bertForDiffusionInit, hfns, ht1, ht2, Except.bind]
      rfl
    | inr h =>
      subst h
      simp [bertForDiffusionInit, hfns, ht1, ht2, Except.bind]
      rfl
  · intro name h0 h1 h2
    simp [configure_optimizers, h0, h1, h2]

theorem unknown_names_raise_config_errors_witness :
    bertForDiffusionInit false [true] none "sinusoidal" "conv" "l1" =
      .error (.unrecognizedDecoder "conv") ∧
    bertForDiffusionInit false [true] none "fourier" "mlp" "l1" =
      .error (.unknownTimeEncoding "fourier") ∧
    configure_optimizers (some "CosineAnnealing") =
      .error (.unknownLrScheduler "CosineAnnealing") := by
  refine ⟨?_, ?_, ?_⟩
  · exact unknown_names_raise_config_errors.1 [true] "sinusoidal" "conv" "l1"
      (by decide) (by decide) (by decide)
  · exact unknown_names_raise_config_errors.2.1 [true] "fourier" "mlp" "l1"
      (Or.inr rfl) (by decide) (by decide) (by decide)
  · exact unknown_names_raise_config_errors.2.2 "CosineAnnealing"
      (by decide) (by decide) (by decide)

/-! ### `from_dir`: checkpoint filename parsing, sorting, and selection -/

/-- The matches of the regex `epoch=[0-9]+` over a character list, scanned
left to right, non-overlapping and digit-greedy as `re.findall` does. The
fuel argument (instantiated with the list length) only bounds recursion:
every step consumes at least one character. -/
def findEpochMatchesFuel : Nat → List Char → List (List Char)
  | 0, _ => []
  | _, [] => []
  | fuel + 1, c :: rest =>
    let ds := ((c :: rest).drop 6).takeWhile Char.isDigit
    if (c :: rest).take 6 = ['e', 'p', 'o', 'c', 'h', '='] ∧ ds ≠ [] then
      (['e', 'p', 'o', 'c', 'h', '='] ++ ds) ::
        findEpochMatchesFuel fuel ((c :: rest).drop (6 + ds.length))
    else findEpochMatchesFuel fuel rest

/-- `re.findall(r"epoch=[0-9]+", s)`. -/
def re_findall_epoch (s : String) : List String :=
  (findEpochMatchesFuel s.toList.length s.toList).map fun cs => String.mk cs

/-- `os.path.basename`: the component after the final `/`. -/
def basename (path : String) : String :=
  String.mk ((path.toList.splitOn '/').getLastD [])

/-- `int` applied to a digit string. -/
def parseDigits (cs : List Char) : Nat :=
  cs.foldl (fun n c => 10 * n + (c.toNat - 48)) 0

/-- `epoch_getter = lambda x: int(re.findall(r"epoch=[0-9]+",
os.path.basename(x)).pop().split("=")[-1])`; `none` models the `IndexError`
of `.pop()` on a name with no match. -/
def epoch_getter (path : String) : Option Nat :=
  match (re_findall_epoch (basename path)).getLast? with
  | none => none
  | some m => some (parseDigits ((m.toList.splitOn '=').getLastD []))

/-- The sort key as used inside `sorted(..., key=epoch_getter)` (the guarded
callers below only apply it where parsing succeeds). -/
def epochKey (path : String) : Nat := (epoch_getter path).getD 0

/-- `sorted(ckpt_names, key=epoch_getter)`: a stable sort, ascending by the
embedded epoch number. -/
def sortCkptNames (names : List String) : List String :=
  List.insertionSort (fun a b => epochKey a ≤ epochKey b) names

/-- Python list indexing `l[idx]` with negative indices counting from the
end; `none` models `IndexError`. -/
def pyIndex (l : List String) (idx : Int) : Option String :=
  if idx < 0 then
    if (l.length : Int) + idx < 0 then none
    else l[((l.length : Int) + idx).toNat]?
  else l[idx.toNat]?

/-- The checkpoint-selection step of `from_dir`: sort the checkpoint names by
epoch and take `ckpt_names[idx]`; `none` when some filename fails to parse
(the sort key call would raise). -/
def from_dir_select_ckpt (names : List String) (idx : Int) : Option String :=
  if names.all fun n => (epoch_getter n).isSome then
    pyIndex (sortCkptNames names) idx
  else none

theorem sorted_key_le_getLast {f : String → Nat} :
    ∀ (l : List String) (hs : List.Sorted (fun a b => f a ≤ f b) l) (hne : l ≠ [])
      (a : String), a ∈ l → f a ≤ f (l.getLast hne) := by
  intro l hs hne a ha
  obtain ⟨i, rfl⟩ := List.mem_iff_get.mp ha
  have hpos : 0 < l.length := List.length_pos.mpr hne
  have hlast : l.getLast hne = l.get ⟨l.length - 1, by omega⟩ := List.getLast_eq_get l hne
  rw [hlast]
  by_cases hlt : (i : Nat) < l.length - 1
  · exact hs.rel_get_of_lt hlt
  · have hival : (i : Nat) = l.length - 1 := by
      have := i.isLt
      omega
    have : i = ⟨l.length - 1, by omega⟩ := Fin.ext hival
    rw [this]

/-- C7: the checkpoint list is sorted ascending by the epoch number parsed
from each filename (a permutation of the input), index `-1` selects a
checkpoint whose epoch number is maximal, and on the spec's literal filenames
the sorted epoch order is `[1, 3, 10]` with `-1` selecting `epoch=10.ckpt`. -/
theorem checkpoint_selection_sorted_by_epoch :
    (∀ names : List String,
      List.Sorted (fun a b => epochKey a ≤ epochKey b) (sortCkptNames names) ∧
      (sortCkptNames names).Perm names) ∧
    (∀ names : List String,
      (names.all fun n => (epoch_getter n).isSome) = true → names ≠ [] →
      ∃ sel, from_dir_select_ckpt names (-1) = some sel ∧ sel ∈ names ∧
        ∀ n ∈ names, epochKey n ≤ epochKey sel) ∧
    (sortCkptNames ["epoch=3.ckpt", "epoch=10.ckpt", "epoch=1.ckpt"] =
        ["epoch=1.ckpt", "epoch=3.ckpt", "epoch=10.ckpt"] ∧
      (sortCkptNames ["epoch=3.ckpt", "epoch=10.ckpt", "epoch=1.ckpt"]).map epochKey =
        [1, 3, 10] ∧
      from_dir_select_ckpt ["epoch=3.ckpt", "epoch=10.ckpt", "epoch=1.ckpt"] (-1) =
        some "epoch=10.ckpt") := by
  haveI hTr : IsTrans String fun a b => epochKey a ≤ epochKey b :=
    ⟨fun _ _ _ => Nat.le_trans⟩
  haveI hTo : IsTotal String fun a b => epochKey a ≤ epochKey b :=
    ⟨fun a b => Nat.le_total (epochKey a) (epochKey b)⟩
  refine ⟨?_, ?_, ?_⟩
  · intro names
    exact ⟨List.sorted_insertionSort _ names, List.perm_insertionSort _ names⟩
  · intro names hall hne
    have hsorted : List.Sorted (fun a b => epochKey a ≤ epochKey b)
        (sortCkptNames names) := List.sorted_insertionSort _ names
    have hperm : (sortCkptNames names).Perm names := List.perm_insertionSort _ names
    have hlzero : sortCkptNames names ≠ [] := by
      intro h0
      apply hne
      have hlen := hperm.length_eq
      rw [h0] at hlen
      exact List.length_eq_zero.mp hlen.symm
    have hlpos : 0 < (sortCkptNames names).length := List.length_pos.mpr hlzero
    refine ⟨(sortCkptNames names).getLast hlzero, ?_, ?_, ?_⟩
    · unfold from_dir_select_ckpt
      rw [if_pos hall]
      unfold pyIndex
      rw [if_pos (by norm_num), if_neg (by omega)]
      have htn : (((sortCkptNames names).length : Int) + (-1)).toNat =
          (sortCkptNames names).length - 1 := by omega
      rw [htn, ← List.getLast?_eq_getElem?, List.getLast?_eq_getLast _ hlzero]
    · exact hperm.mem_iff.mp (List.getLast_mem hlzero)
    · intro n hn
      exact sorted_key_le_getLast _ hsorted hlzero n (hperm.mem_iff.mpr hn)
  · refine ⟨by decide, by decide, by decide⟩

theorem checkpoint_selection_sorted_by_epoch_witness :
    ∃ sel, from_dir_select_ckpt ["epoch=3.ckpt", "epoch=10.ckpt", "epoch=1.ckpt"] (-1) =
        some sel ∧
      sel ∈ ["epoch=3.ckpt", "epoch=10.ckpt", "epoch=1.ckpt"] ∧
      ∀ n ∈ ["epoch=3.ckpt", "epoch=10.ckpt", "epoch=1.ckpt"], epochKey n ≤ epochKey sel :=
  checkpoint_selection_sorted_by_epoch.2.1
    ["epoch=3.ckpt", "epoch=10.ckpt", "epoch=1.ckpt"] (by decide) (by decide)

/-! ### Torch shape calculus

Shapes are dimension lists; each operation mirrors the shape semantics of the
torch operation the code performs, with `none` for a shape error.
-/

/-- A tensor shape: the list of dimension sizes. -/
abbrev Shape := List Nat

/-- Broadcast of one dimension pair: equal sizes, or one of them `1`. -/
def broadcastDim (a b : Nat) : Option Nat :=
  if a = b then some a
  else if a = 1 then some b
  else if b = 1 then some a
  else none

/-- Broadcasting over reversed (right-aligned) dimension lists. -/
def broadcastRev : List Nat → List Nat → Option (List Nat)
  | [], t => some t
  | s, [] => some s
  | a :: s, b :: t => do
    let d ← broadcastDim a b
    let r ← broadcastRev s t
    some (d :: r)

/-- Torch elementwise-op broadcasting of two shapes. -/
def broadcastShape (s t : Shape) : Option Shape :=
  (broadcastRev s.reverse t.reverse).map List.reverse

/-- `x.squeeze()` with no argument: drop every size-1 dimension. -/
def squeezeAllShape (s : Shape) : Shape := s.filter fun d => d ≠ 1

/-- `x.squeeze(dim=-1)`: drop the final dimension when it has size 1. -/
def squeezeLastDim (s : Shape) : Shape :=
  if s.getLast? = some 1 then s.dropLast else s

/-- `x[:, None]`: insert a size-1 axis at position 1 (an index error on a
rank-0 tensor). -/
def indexSliceNoneShape : Shape → Option Shape
  | [] => none
  | a :: rest => some (a :: 1 :: rest)

/-- `x.unsqueeze(1)` (requires rank at least 1). -/
def unsqueeze1Shape : Shape → Option Shape
  | [] => none
  | a :: rest => some (a :: 1 :: rest)

/-- `torch.cat([a, b], dim=-1)` for two tensors of the same shape: double
the final dimension (an error on rank 0). -/
def catLastDouble : Shape → Option Shape
  | [] => none
  | [a] => some [2 * a]
  | a :: b :: rest => (catLastDouble (b :: rest)).map fun r => a :: r

/-- The input normalization at the top of `GaussianFourierProjection.forward`:
`if x.ndim > 1: x = x.squeeze()` / `elif x.ndim < 1: x = x.unsqueeze(0)`. -/
def fourierNormalize (x : Shape) : Shape :=
  if x.length > 1 then squeezeAllShape x
  else if x.length < 1 then [1] else x

/-- Shape of `GaussianFourierProjection.forward`: normalize the input rank,
then `x[:, None] * W[None, :] * 2 * pi` with `W` of length `embed_dim // 2`,
then `cat([sin, cos], dim=-1)`. -/
def gaussianFourierForwardShape (embed_dim : Nat) (x : Shape) : Option Shape := do
  let xn := fourierNormalize x
  let xp ← indexSliceNoneShape xn
  let xproj ← broadcastShape xp [1, embed_dim / 2]
  catLastDouble xproj

/-- Shape of `SinusoidalPositionEmbeddings.forward`: no rank normalization.
It first computes `math.log(10000) / (half_dim - 1)` with
`half_dim = dim // 2`, a Python `ZeroDivisionError` exactly when
`half_dim == 1` (when `half_dim == 0` Python divides by `-1`, which is
fine), so every call fails when `dim // 2 = 1`; otherwise
`time[:, None] * embeddings[None, :]` with `embeddings` of length
`dim // 2`, then `cat((sin, cos), dim=-1)`. -/
def sinusoidalForwardShape (dim : Nat) (time : Shape) : Option Shape :=
  if dim / 2 = 1 then none
  else do
    let tp ← indexSliceNoneShape time
    let e ← broadcastShape tp [1, dim / 2]
    catLastDouble e

theorem broadcastDim_self (a : Nat) : broadcastDim a a = some a := by
  simp [broadcastDim]

theorem broadcastDim_one_left (b : Nat) : broadcastDim 1 b = some b := by
  by_cases h : (1 : Nat) = b
  · simp [broadcastDim, h]
  · simp [broadcastDim, h]

theorem broadcastDim_one_right (a : Nat) : broadcastDim a 1 = some a := by
  by_cases h : a = 1
  · simp [broadcastDim, h]
  · simp [broadcastDim, h]

theorem broadcast_col_row (b h : Nat) : broadcastShape [b, 1] [1, h] = some [b, h] := by
  simp [broadcastShape, broadcastRev, broadcastDim_one_left, broadcastDim_one_right]

theorem gaussianFourier_rank1 (H B : Nat) (hH : 2 ∣ H) :
    gaussianFourierForwardShape H [B] = some [B, H] := by
  have hnorm : fourierNormalize [B] = [B] := by simp [fourierNormalize]
  simp only [gaussianFourierForwardShape, hnorm, indexSliceNoneShape,
    Option.bind_eq_bind, Option.some_bind, broadcast_col_row, catLastDouble]
  rw [Nat.mul_div_cancel' hH]
  rfl

theorem sinusoidal_half_one_none (H : Nat) (hH : H / 2 = 1) :
    ∀ time : Shape, sinusoidalForwardShape H time = none := by
  intro time
  simp [sinusoidalForwardShape, hH]

theorem sinusoidal_rank1 (H B : Nat) (hH : 2 ∣ H) (hH2 : H ≠ 2) :
    sinusoidalForwardShape H [B] = some [B, H] := by
  have hhalf : H / 2 ≠ 1 := by
    obtain ⟨k, rfl⟩ := hH
    rw [Nat.mul_div_cancel_left k (by norm_num)]
    omega
  simp only [sinusoidalForwardShape, if_neg hhalf, indexSliceNoneShape,
    Option.bind_eq_bind, Option.some_bind, broadcast_col_row, catLastDouble]
  rw [Nat.mul_div_cancel' hH]
  rfl

/-- C8 counterexample: on a rank-2 input with a trailing singleton dimension
the sinusoidal encoder does not collapse it — shape `(3, 1)` with hidden
size 4 yields `(3, 1, 4)`, not the `(3, 4)` the claim requires — and a
rank-0 input is an error for it rather than being promoted to rank 1. -/
theorem sinusoidal_no_rank_normalization :
    sinusoidalForwardShape 4 [3, 1] = some [3, 1, 4] ∧
    sinusoidalForwardShape 4 [3, 1] ≠ some [3, 4] ∧
    sinusoidalForwardShape 4 [] = none := by decide

/-- C8 amended: only the Fourier encoder normalizes rank — for rank above 1
it collapses all singleton dimensions (`squeeze()`), not only trailing ones,
and it promotes rank 0 to rank 1 — while the sinusoidal encoder performs no
normalization and errors on rank 0. For a rank-1 batch of `B` timesteps and
even hidden size `H` the Fourier encoder produces shape `(B, H)`; the
sinusoidal encoder does so for even `H ≠ 2`, while for any `H` with
`H // 2 = 1` (hidden size 2 or 3) it divides by `half_dim - 1 = 0` and
fails on every input. -/
theorem time_encoder_rank_normalization_amended :
    (∀ s : Shape, s.length > 1 → fourierNormalize s = squeezeAllShape s) ∧
    (∀ s : Shape, s.length = 0 → fourierNormalize s = [1]) ∧
    (∀ H B : Nat, 2 ∣ H → gaussianFourierForwardShape H [B] = some [B, H]) ∧
    (∀ H B : Nat, 2 ∣ H → H ≠ 2 → sinusoidalForwardShape H [B] = some [B, H]) ∧
    (∀ H : Nat, H / 2 = 1 → ∀ t : Shape, sinusoidalForwardShape H t = none) ∧
    (∀ H : Nat, sinusoidalForwardShape H [] = none) := by
  refine ⟨?_, ?_, ?_, ?_, ?_, ?_⟩
  · intro s hs
    simp [fourierNormalize, hs]
  · intro s hs
    have : s = [] := List.length_eq_zero.mp hs
    subst this
    rfl
  · intro H B hH
    exact gaussianFourier_rank1 H B hH
  · intro H B hH hH2
    exact sinusoidal_rank1 H B hH hH2
  · intro H hH t
    exact sinusoidal_half_one_none H hH t
  · intro H
    by_cases h : H / 2 = 1
    · exact sinusoidal_half_one_none H h []
    · simp [sinusoidalForwardShape, h, indexSliceNoneShape]

theorem time_encoder_rank_normalization_amended_witness :
    fourierNormalize [3, 1] = squeezeAllShape [3, 1] ∧
    fourierNormalize [] = [1] ∧
    gaussianFourierForwardShape 4 [3] = some [3, 4] ∧
    sinusoidalForwardShape 4 [3] = some [3, 4] ∧
    sinusoidalForwardShape 2 [3] = none := by
  refine ⟨?_, ?_, ?_, ?_, ?_⟩
  · exact time_encoder_rank_normalization_amended.1 [3, 1] (by norm_num)
  · exact time_encoder_rank_normalization_amended.2.1 [] rfl
  · exact time_encoder_rank_normalization_amended.2.2.1 4 3 (by norm_num)
  · exact time_encoder_rank_normalization_amended.2.2.2.1 4 3 (by norm_num) (by norm_num)
  · exact time_encoder_rank_normalization_amended.2.2.2.2.1 2 (by norm_num) [3]

/-! ### `BertForDiffusion.forward`: shape semantics -/

/-- Shape of `nn.Linear(in_features, out_features)` applied to a tensor:
requires the final dimension to equal `in_features`, replaces it with
`out_features`. -/
def linearShape (in_features out_features : Nat) : Shape → Option Shape
  | [] => none
  | [a] => if a = in_features then some [out_features] else none
  | a :: b :: rest =>
    (linearShape in_features out_features (b :: rest)).map fun r => a :: r

/-- Shape of `AnglesPredictor.forward`: `dense1` (`d_model → d_model`),
shape-preserving activation and layer norm, then `dense2`
(`d_model → d_out`). -/
def anglesPredictorShape (d_model d_out : Nat) (s : Shape) : Option Shape := do
  let s1 ← linearShape d_model d_model s
  linearShape d_model d_out s1

/-- Modelled from the spec: the external transformer stack (`BertEncoder`
from `transformers`, outside this repository) returns contextual embeddings
of exactly the shape it is given. -/
def bertEncoderShape (s : Shape) : Shape := s

/-- Shape of `BertEmbeddings.forward` in `forward`'s auto-generated
position-id path: the `nn.Embedding(max_position_embeddings, hidden)` lookup
at ids `arange(L).expand(B, -1)` requires every id below the embedding count
(`L ≤ max_position`), produces `(B, L, hidden)`, which is added to the
input embeddings of the same shape; layer norm and dropout preserve it. -/
def bertEmbeddingsForwardShape (hidden max_position B L : Nat)
    (input_embeds : Shape) : Option Shape :=
  if L ≤ max_position ∧ input_embeds = [B, L, hidden] then some input_embeds
  else none

/-- Dispatch to the time-embedding module chosen at construction. -/
def timeEmbedShape : TimeEncodingVariant → Nat → Shape → Option Shape
  | .gaussianFourier, H, s => gaussianFourierForwardShape H s
  | .sinusoidal, H, s => sinusoidalForwardShape H s

/-- Shape semantics of `BertForDiffusion.forward` with auto-generated
position ids: shape asserts, input upscaling, position embeddings, time
embedding of `timestep.squeeze(dim=-1)` unsqueezed and broadcast-added, the
shape-preserving encoder, then the decoder head. -/
def forwardShape (hidden max_position n_inputs : Nat)
    (time_encoding : TimeEncodingVariant) (decoder : DecoderHead)
    (inputs timestep attention_mask : Shape) : Option Shape :=
  match inputs with
  | B :: L :: rest =>
    if attention_mask.length ≠ 2 then none
    else if (B :: L :: rest).length ≠ 3 then none
    else do
      let up ← linearShape n_inputs hidden (B :: L :: rest)
      let emb ← bertEmbeddingsForwardShape hidden max_position B L up
      let te ← timeEmbedShape time_encoding hidden (squeezeLastDim timestep)
      let te1 ← unsqueeze1Shape te
      let withTime ← broadcastShape emb te1
      match decoder with
      | .linear => linearShape hidden n_inputs (bertEncoderShape withTime)
      | .mlp => anglesPredictorShape hidden n_inputs (bertEncoderShape withTime)
  | _ => none

theorem linearShape_rank3 (a b x y : Nat) :
    linearShape a b [x, y, a] = some [x, y, b] := by
  simp [linearShape]

theorem broadcastShape_blh (b l h : Nat) :
    broadcastShape [b, l, h] [b, 1, h] = some [b, l, h] := by
  simp [broadcastShape, broadcastRev, broadcastDim_self, broadcastDim_one_right]

theorem broadcastShape_1lh (l h : Nat) :
    broadcastShape [1, l, h] [1, 1, h] = some [1, l, h] := by
  simp [broadcastShape, broadcastRev, broadcastDim_self, broadcastDim_one_right]

theorem squeezeLastDim_singleton_of_ne (B : Nat) (h : B ≠ 1) :
    squeezeLastDim [B] = [B] := by
  simp [squeezeLastDim, h]

theorem forwardShape_of_timeEmbed (H maxPos B L C : Nat) (tev : TimeEncodingVariant)
    (dec : DecoderHead) (t : Shape) (hL : L ≤ maxPos)
    (hte : timeEmbedShape tev H (squeezeLastDim t) = some [B, H]) :
    forwardShape H maxPos C tev dec [B, L, C] t [B, L] = some [B, L, C] := by
  cases dec with
  | linear =>
    simp [forwardShape, linearShape_rank3, bertEmbeddingsForwardShape, hL, hte,
      unsqueeze1Shape, broadcastShape_blh, bertEncoderShape]
  | mlp =>
    simp [forwardShape, linearShape_rank3, bertEmbeddingsForwardShape, hL, hte,
      unsqueeze1Shape, broadcastShape_blh, bertEncoderShape, anglesPredictorShape]

/-- C3 counterexample: with the sinusoidal time encoding, batch size 1 and a
rank-1 timestep (shape `(1,)`, valid per the data model), the forward pass
fails (`timestep.squeeze(dim=-1)` is rank 0, which `time[:, None]` rejects)
instead of returning the input shape `(1, 2, 3)`. -/
theorem forward_shape_sinusoidal_batch1_fails :
    forwardShape 4 512 3 .sinusoidal .linear [1, 2, 3] [1] [1, 2] = none ∧
    forwardShape 4 512 3 .sinusoidal .mlp [1, 2, 3] [1] [1, 2] = none ∧
    forwardShape 4 512 3 .sinusoidal .linear [1, 2, 3] [1] [1, 2] ≠
      some [1, 2, 3] := by decide

theorem forwardShape_sinusoidal_half_one_none (H maxPos C : Nat)
    (hH : H / 2 = 1) (dec : DecoderHead) (inputs t mask : Shape) :
    forwardShape H maxPos C .sinusoidal dec inputs t mask = none := by
  have hte : ∀ s : Shape, timeEmbedShape .sinusoidal H s = none := fun s =>
    sinusoidal_half_one_none H hH s
  match inputs with
  | [] => rfl
  | [a] => rfl
  | B :: L :: rest =>
    simp only [forwardShape]
    by_cases h1 : mask.length ≠ 2
    · rw [if_pos h1]
    · rw [if_neg h1]
      by_cases h2 : (B :: L :: rest).length ≠ 3
      · rw [if_pos h2]
      · rw [if_neg h2]
        cases hup : linearShape C H (B :: L :: rest) with
        | none => simp [hup]
        | some up =>
          cases hemb : bertEmbeddingsForwardShape H maxPos B L up with
          | none => simp [hup, hemb]
          | some emb => simp [hup, hemb, hte]

/-- C3 amended: for inputs `(B, L, C)` matching the model's channel count,
with even hidden size and `L` within the configured maximum position count,
both decoder heads return exactly the input shape: always under the Fourier
time encoding (timestep `(B,)` or `(B, 1)`), and under the sinusoidal
encoding — provided the hidden size is not 2 — for a `(B, 1)` timestep or a
`(B,)` timestep with `B ≥ 2`. The remaining sinusoidal cases fail: `B = 1`
with a rank-1 timestep (the counterexample), and hidden size with
`H // 2 = 1`, where the encoder's division by `half_dim - 1 = 0` makes the
forward pass fail on every input. -/
theorem forward_shape_round_trip_amended (H maxPos B L C : Nat) (hH : 2 ∣ H)
    (hL : L ≤ maxPos) (dec : DecoderHead) :
    (∀ t : Shape, t = [B] ∨ t = [B, 1] →
      forwardShape H maxPos C .gaussianFourier dec [B, L, C] t [B, L] =
        some [B, L, C]) ∧
    (H ≠ 2 → forwardShape H maxPos C .sinusoidal dec [B, L, C] [B, 1] [B, L] =
      some [B, L, C]) ∧
    (H ≠ 2 → 2 ≤ B → forwardShape H maxPos C .sinusoidal dec [B, L, C] [B] [B, L] =
      some [B, L, C]) ∧
    (∀ inputs t mask : Shape,
      forwardShape 2 maxPos C .sinusoidal dec inputs t mask = none) := by
  have hsq : squeezeLastDim [B, 1] = [B] := by simp [squeezeLastDim]
  refine ⟨?_, ?_, ?_, ?_⟩
  · intro t ht
    cases ht with
    | inl h =>
      subst h
      by_cases hB : B = 1
      · subst hB
        refine forwardShape_of_timeEmbed H maxPos 1 L C _ dec [1] hL ?_
        have hsq1 : squeezeLastDim [1] = [] := by simp [squeezeLastDim]
        rw [hsq1]
        show gaussianFourierForwardShape H [] = some [1, H]
        have h0 : gaussianFourierForwardShape H [] = gaussianFourierForwardShape H [1] := rfl
        rw [h0]
        exact gaussianFourier_rank1 H 1 hH
      · refine forwardShape_of_timeEmbed H maxPos B L C _ dec [B] hL ?_
        rw [squeezeLastDim_singleton_of_ne B hB]
        exact gaussianFourier_rank1 H B hH
    | inr h =>
      subst h
      refine forwardShape_of_timeEmbed H maxPos B L C _ dec [B, 1] hL ?_
      rw [hsq]
      exact gaussianFourier_rank1 H B hH
  · intro hH2
    refine forwardShape_of_timeEmbed H maxPos B L C _ dec [B, 1] hL ?_
    rw [hsq]
    exact sinusoidal_rank1 H B hH hH2
  · intro hH2 hB
    refine forwardShape_of_timeEmbed H maxPos B L C _ dec [B] hL ?_
    rw [squeezeLastDim_singleton_of_ne B (by omega)]
    exact sinusoidal_rank1 H B hH hH2
  · intro inputs t mask
    exact forwardShape_sinusoidal_half_one_none 2 maxPos C rfl dec inputs t mask

theorem forward_shape_round_trip_amended_witness :
    forwardShape 4 512 3 .gaussianFourier .linear [2, 5, 3] [2] [2, 5] =
      some [2, 5, 3] ∧
    forwardShape 4 512 3 .sinusoidal .mlp [2, 5, 3] [2, 1] [2, 5] =
      some [2, 5, 3] ∧
    forwardShape 4 512 3 .sinusoidal .linear [2, 5, 3] [2] [2, 5] =
      some [2, 5, 3] ∧
    forwardShape 2 512 3 .sinusoidal .linear [2, 5, 3] [2] [2, 5] = none := by
  refine ⟨?_, ?_, ?_, ?_⟩
  · exact (forward_shape_round_trip_amended 4 512 2 5 3 (by norm_num) (by norm_num)
      .linear).1 [2] (Or.inl rfl)
  · exact (forward_shape_round_trip_amended 4 512 2 5 3 (by norm_num) (by norm_num)
      .mlp).2.1 (by norm_num)
  · exact (forward_shape_round_trip_amended 4 512 2 5 3 (by norm_num) (by norm_num)
      .linear).2.2.1 (by norm_num) (by norm_num)
  · exact (forward_shape_round_trip_amended 2 512 2 5 3 (by norm_num) (by norm_num)
      .linear).2.2.2 [2, 5, 3] [2] [2, 5]
